import Mathlib

/-!
Verification of the BLDC motor performance and loss model
(src/bldc_model.py), shallowly embedded over the real numbers.
The model is a pure function of six scalar parameters and a sample
count; every per-sample quantity is a closed-form expression of the
speed of the sample, so each array of the source is embedded as the map of
a per-index function over List.range n.
-/

namespace BLDC

noncomputable section

/-- Thermal model constant from the source, THERMAL_RESISTANCE_C_PER_W = 0.15. -/
def THERMAL_RESISTANCE_C_PER_W : ℝ := 0.15

/-- Ambient temperature constant from the source, AMBIENT_TEMP_C = 27.0. -/
def AMBIENT_TEMP_C : ℝ := 27

/-- ke_from_kv from the source: 1.0 / (kv_rpm_per_v * (2.0 * pi / 60.0)). -/
def ke_from_kv (kv_rpm_per_v : ℝ) : ℝ :=
  1 / (kv_rpm_per_v * (2 * Real.pi / 60))

/-- kt_from_ke from the source: the identity. -/
def kt_from_ke (ke : ℝ) : ℝ := ke

/-- Element i of np.linspace(start, stop, n) in exact real arithmetic:
for n at least 2 the points are start + (stop - start) * i / (n - 1);
np.linspace with n = 1 yields the single point start, and with n = 0 an
empty array (the index function is then never consulted). -/
def linspaceAt (start stop : ℝ) (n i : ℕ) : ℝ :=
  if n ≤ 1 then start else start + (stop - start) * (i : ℝ) / ((n : ℝ) - 1)

/-- speed_rpm_no_load of the source: omega_no_load = v_bus / ke, then
converted to rpm by multiplying with 60 / (2 pi). -/
def speed_rpm_no_load (kv_rpm_per_v v_bus : ℝ) : ℝ :=
  (v_bus / ke_from_kv kv_rpm_per_v) * 60 / (2 * Real.pi)

/-- Sample i of the speed sweep speed_rpm = np.linspace(0.0, speed_rpm_no_load, n). -/
def speed_rpmAt (kv_rpm_per_v v_bus : ℝ) (n i : ℕ) : ℝ :=
  linspaceAt 0 (speed_rpm_no_load kv_rpm_per_v v_bus) n i

/-- Sample i of omega = speed_rpm * 2.0 * pi / 60.0. -/
def omegaAt (kv_rpm_per_v v_bus : ℝ) (n i : ℕ) : ℝ :=
  speed_rpmAt kv_rpm_per_v v_bus n i * 2 * Real.pi / 60

/-- Sample i of e_back = ke * omega. -/
def e_backAt (kv_rpm_per_v v_bus : ℝ) (n i : ℕ) : ℝ :=
  ke_from_kv kv_rpm_per_v * omegaAt kv_rpm_per_v v_bus n i

/-- Sample i of i_phase = np.maximum((v_bus - e_back) / r_phase, 0.0). -/
def i_phaseAt (kv_rpm_per_v r_phase v_bus : ℝ) (n i : ℕ) : ℝ :=
  max ((v_bus - e_backAt kv_rpm_per_v v_bus n i) / r_phase) 0

/-- Sample i of torque = kt * i_phase. -/
def torqueAt (kv_rpm_per_v r_phase v_bus : ℝ) (n i : ℕ) : ℝ :=
  kt_from_ke (ke_from_kv kv_rpm_per_v) * i_phaseAt kv_rpm_per_v r_phase v_bus n i

/-- Sample i of p_in = v_bus * i_phase. -/
def p_inAt (kv_rpm_per_v r_phase v_bus : ℝ) (n i : ℕ) : ℝ :=
  v_bus * i_phaseAt kv_rpm_per_v r_phase v_bus n i

/-- Sample i of p_mech = torque * omega. -/
def p_mechAt (kv_rpm_per_v r_phase v_bus : ℝ) (n i : ℕ) : ℝ :=
  torqueAt kv_rpm_per_v r_phase v_bus n i * omegaAt kv_rpm_per_v v_bus n i

/-- Sample i of p_cu = i_phase ** 2 * r_phase. -/
def p_cuAt (kv_rpm_per_v r_phase v_bus : ℝ) (n i : ℕ) : ℝ :=
  i_phaseAt kv_rpm_per_v r_phase v_bus n i ^ 2 * r_phase

/-- Sample i of speed_ratioAt = np.clip(speed_rpm / base_speed_rpm, 0.0, None),
a lower clip only. -/
def speed_ratioAt (kv_rpm_per_v v_bus base_speed_rpm : ℝ) (n i : ℕ) : ℝ :=
  max (speed_rpmAt kv_rpm_per_v v_bus n i / base_speed_rpm) 0

/-- Sample i of p_core = core_loss_at_base * speed_ratio ** 2. -/
def p_coreAt (kv_rpm_per_v v_bus core_loss_at_base base_speed_rpm : ℝ) (n i : ℕ) : ℝ :=
  core_loss_at_base * speed_ratioAt kv_rpm_per_v v_bus base_speed_rpm n i ^ 2

/-- Sample i of p_loss_total = p_cu + p_core. -/
def p_loss_totalAt (kv_rpm_per_v r_phase v_bus core_loss_at_base base_speed_rpm : ℝ)
    (n i : ℕ) : ℝ :=
  p_cuAt kv_rpm_per_v r_phase v_bus n i +
    p_coreAt kv_rpm_per_v v_bus core_loss_at_base base_speed_rpm n i

/-- Sample i of eta = np.clip(np.where(p_in > 1e-6, p_mech / p_in, 0.0), 0.0, 1.0). -/
def etaAt (kv_rpm_per_v r_phase v_bus : ℝ) (n i : ℕ) : ℝ :=
  min (max (if p_inAt kv_rpm_per_v r_phase v_bus n i > 1e-6 then
      p_mechAt kv_rpm_per_v r_phase v_bus n i / p_inAt kv_rpm_per_v r_phase v_bus n i
    else 0) 0) 1

/-- np.max of a list of reals; np.max of a nonempty array is the greatest
element (np.max raises on an empty array, for which this returns a junk
value never relied on). -/
def npMax (l : List ℝ) : ℝ := l.foldl max (l.headD 0)

/-- The dict of arrays and scalars returned by motor_model in the source. -/
structure MotorResults where
  speed_rpm : List ℝ
  omega : List ℝ
  torque : List ℝ
  current : List ℝ
  p_in : List ℝ
  p_mech : List ℝ
  p_cu : List ℝ
  p_core : List ℝ
  p_loss_total : List ℝ
  efficiency : List ℝ
  speed_rpm_no_load : ℝ
  ke : ℝ
  kt : ℝ
  p_loss_max : ℝ
  delta_t_max : ℝ
  t_case_max : ℝ

/-- motor_model from the source: computes the full speed sweep and the
thermal summary.  The i_noload parameter is accepted exactly as in the
source, where it appears in the signature but in no formula. -/
def motor_model (kv_rpm_per_v r_phase v_bus i_noload core_loss_at_base
    base_speed_rpm : ℝ) (n_points : ℕ) : MotorResults :=
  { speed_rpm := (List.range n_points).map (speed_rpmAt kv_rpm_per_v v_bus n_points)
    omega := (List.range n_points).map (omegaAt kv_rpm_per_v v_bus n_points)
    torque := (List.range n_points).map (torqueAt kv_rpm_per_v r_phase v_bus n_points)
    current := (List.range n_points).map (i_phaseAt kv_rpm_per_v r_phase v_bus n_points)
    p_in := (List.range n_points).map (p_inAt kv_rpm_per_v r_phase v_bus n_points)
    p_mech := (List.range n_points).map (p_mechAt kv_rpm_per_v r_phase v_bus n_points)
    p_cu := (List.range n_points).map (p_cuAt kv_rpm_per_v r_phase v_bus n_points)
    p_core := (List.range n_points).map
      (p_coreAt kv_rpm_per_v v_bus core_loss_at_base base_speed_rpm n_points)
    p_loss_total := (List.range n_points).map
      (p_loss_totalAt kv_rpm_per_v r_phase v_bus core_loss_at_base base_speed_rpm n_points)
    efficiency := (List.range n_points).map (etaAt kv_rpm_per_v r_phase v_bus n_points)
    speed_rpm_no_load := speed_rpm_no_load kv_rpm_per_v v_bus
    ke := ke_from_kv kv_rpm_per_v
    kt := kt_from_ke (ke_from_kv kv_rpm_per_v)
    p_loss_max := npMax ((List.range n_points).map
      (p_loss_totalAt kv_rpm_per_v r_phase v_bus core_loss_at_base base_speed_rpm n_points))
    delta_t_max := npMax ((List.range n_points).map
      (p_loss_totalAt kv_rpm_per_v r_phase v_bus core_loss_at_base base_speed_rpm n_points)) *
      THERMAL_RESISTANCE_C_PER_W
    t_case_max := AMBIENT_TEMP_C + npMax ((List.range n_points).map
      (p_loss_totalAt kv_rpm_per_v r_phase v_bus core_loss_at_base base_speed_rpm n_points)) *
      THERMAL_RESISTANCE_C_PER_W }

/-- ke_from_kv with its error path: the source divides by
kv_rpm_per_v * (2.0 * pi / 60.0) in plain Python floats, which raises
ZeroDivisionError when that denominator is zero, i.e. when the speed
constant is zero; none models the raise. -/
def ke_from_kvChecked (kv_rpm_per_v : ℝ) : Option ℝ :=
  if kv_rpm_per_v * (2 * Real.pi / 60) = 0 then none
  else some (ke_from_kv kv_rpm_per_v)

/-- np.max with its error path: np.max raises ValueError on an empty array;
none models the raise, and on a nonempty list this is some (npMax l). -/
def npMaxChecked (l : List ℝ) : Option ℝ :=
  if l = [] then none else some (npMax l)

/-- motor_model with the error paths of the source made explicit: it first
calls ke_from_kv, which raises ZeroDivisionError when the speed constant is
zero, then computes every array (numpy vectorized arithmetic, which warns
but does not raise on division by zero, so non-positive resistance or base
speed raise nothing), and finally calls np.max on the total-loss array,
which raises ValueError when the sweep is empty (n_points = 0).  none
models a raise; otherwise the run completes with the motor_model bundle. -/
def motor_modelChecked (kv_rpm_per_v r_phase v_bus i_noload core_loss_at_base
    base_speed_rpm : ℝ) (n_points : ℕ) : Option MotorResults :=
  (ke_from_kvChecked kv_rpm_per_v).bind fun _ =>
    (npMaxChecked ((List.range n_points).map (p_loss_totalAt kv_rpm_per_v
      r_phase v_bus core_loss_at_base base_speed_rpm n_points))).bind fun _ =>
    some (motor_model kv_rpm_per_v r_phase v_bus i_noload core_loss_at_base
      base_speed_rpm n_points)

end

/-- The no-load speed in rpm collapses to v_bus * kv: the rad-to-rpm factors cancel. -/
lemma speed_rpm_no_load_eq (kv v : ℝ) :
    speed_rpm_no_load kv v = v * kv := by
  unfold speed_rpm_no_load ke_from_kv
  have hπ : Real.pi ≠ 0 := Real.pi_ne_zero
  field_simp
  ring

/-- The sweep starts at zero for every sample count. -/
lemma speed_rpmAt_zero (kv v : ℝ) (n : ℕ) : speed_rpmAt kv v n 0 = 0 := by
  unfold speed_rpmAt linspaceAt
  split <;> simp

/-- Consecutive sweep samples differ by the constant step stop / (n - 1). -/
lemma speed_rpmAt_spacing (kv v : ℝ) (n i : ℕ) (hn : 2 ≤ n) :
    speed_rpmAt kv v n (i + 1) - speed_rpmAt kv v n i =
      speed_rpm_no_load kv v / ((n : ℝ) - 1) := by
  have h1 : ¬ n ≤ 1 := by omega
  have h2 : (2 : ℝ) ≤ (n : ℝ) := by exact_mod_cast hn
  have hne : ((n : ℝ) - 1) ≠ 0 := by linarith
  unfold speed_rpmAt linspaceAt
  simp only [if_neg h1]
  push_cast
  field_simp
  ring

/-- The final sample of the sweep is exactly the no-load speed. -/
lemma speed_rpmAt_last (kv v : ℝ) (m : ℕ) :
    speed_rpmAt kv v (m + 2) (m + 1) = speed_rpm_no_load kv v := by
  have h1 : ¬ m + 2 ≤ 1 := by omega
  have hne : (m : ℝ) + 1 ≠ 0 := by positivity
  unfold speed_rpmAt linspaceAt
  simp only [if_neg h1]
  push_cast
  have h3 : ((m : ℝ) + 2 - 1) = (m : ℝ) + 1 := by ring
  rw [sub_zero, zero_add, h3, mul_div_assoc, div_self hne, mul_one]

/-- The head of a mapped range is the function at zero. -/
lemma head?_map_range {α : Type} (f : ℕ → α) (n : ℕ) (hn : 0 < n) :
    ((List.range n).map f).head? = some (f 0) := by
  obtain ⟨m, rfl⟩ : ∃ m, n = m + 1 := ⟨n - 1, by omega⟩
  rw [List.range_succ_eq_map]
  simp

/-- The last element of a mapped range is the function at the top index. -/
lemma getLast?_map_range {α : Type} (f : ℕ → α) (m : ℕ) :
    ((List.range (m + 1)).map f).getLast? = some (f m) := by
  rw [List.range_succ, List.map_append]
  simp

/-- C1: for every valid input the speed sweep has exactly sample_count
samples, starts at 0, ends exactly at the computed no-load speed
bus_voltage / back_emf_constant converted to rpm by 60 / (2 pi), is
monotonically non-decreasing, and is evenly spaced: consecutive samples
always differ by the constant step no-load-speed / (sample_count - 1). -/
theorem C1_speed_sweep (kv r v inl c base : ℝ) (n : ℕ) (hn : 2 ≤ n)
    (hkv : 0 < kv) (hv : 0 < v) :
    ((motor_model kv r v inl c base n).speed_rpm).length = n ∧
    ((motor_model kv r v inl c base n).speed_rpm).head? = some 0 ∧
    ((motor_model kv r v inl c base n).speed_rpm).getLast? =
      some (v / ke_from_kv kv * 60 / (2 * Real.pi)) ∧
    List.Chain' (· ≤ ·) ((motor_model kv r v inl c base n).speed_rpm) ∧
    ∀ i, speed_rpmAt kv v n (i + 1) - speed_rpmAt kv v n i =
      speed_rpm_no_load kv v / ((n : ℝ) - 1) := by
  obtain ⟨m, rfl⟩ : ∃ m, n = m + 2 := ⟨n - 2, by omega⟩
  have hstop : 0 ≤ speed_rpm_no_load kv v := by
    rw [speed_rpm_no_load_eq]; positivity
  refine ⟨by simp [motor_model], ?_, ?_, ?_,
    fun i => speed_rpmAt_spacing kv v _ i hn⟩
  · simp only [motor_model]
    rw [head?_map_range _ _ (by omega), speed_rpmAt_zero]
  · simp only [motor_model]
    have h := getLast?_map_range (speed_rpmAt kv v (m + 2)) (m + 1)
    rw [speed_rpmAt_last] at h
    exact h
  · simp only [motor_model]
    rw [List.chain'_map]
    have h2 : m + 2 = (m + 1) + 1 := rfl
    rw [h2, List.chain'_range_succ]
    intro k hk
    have hs := speed_rpmAt_spacing kv v (m + 1 + 1) k hn
    have hm : (0 : ℝ) ≤ (m : ℝ) := Nat.cast_nonneg m
    have hden : (0 : ℝ) ≤ ((m + 1 + 1 : ℕ) : ℝ) - 1 := by push_cast; linarith
    have := div_nonneg hstop hden
    linarith [hs ▸ this]

/-- Witness for C1 at the concrete configuration of the source. -/
theorem C1_speed_sweep_witness :
    ((motor_model 920 0.2 14.8 0.8 3 13616 200).speed_rpm).length = 200 ∧
    ((motor_model 920 0.2 14.8 0.8 3 13616 200).speed_rpm).head? = some 0 ∧
    ((motor_model 920 0.2 14.8 0.8 3 13616 200).speed_rpm).getLast? =
      some (14.8 / ke_from_kv 920 * 60 / (2 * Real.pi)) ∧
    List.Chain' (· ≤ ·) ((motor_model 920 0.2 14.8 0.8 3 13616 200).speed_rpm) ∧
    ∀ i, speed_rpmAt 920 14.8 200 (i + 1) - speed_rpmAt 920 14.8 200 i =
      speed_rpm_no_load 920 14.8 / ((200 : ℕ) - 1 : ℝ) :=
  C1_speed_sweep 920 0.2 14.8 0.8 3 13616 200 (by norm_num) (by norm_num)
    (by norm_num)

/-- C2: for every positive speed constant, the derived back-EMF constant
equals 60 / (2 pi kv) in volts per radian per second, and the derived
torque constant equals the back-EMF constant. -/
theorem C2_derived_constants (kv : ℝ) (hkv : 0 < kv) :
    ke_from_kv kv = 60 / (2 * Real.pi * kv) ∧
    kt_from_ke (ke_from_kv kv) = ke_from_kv kv := by
  refine ⟨?_, rfl⟩
  unfold ke_from_kv
  rw [div_eq_div_iff]
  · ring
  · positivity
  · positivity

/-- Witness for C2 at the concrete speed constant 920 of the source. -/
theorem C2_derived_constants_witness :
    ke_from_kv 920 = 60 / (2 * Real.pi * 920) ∧
    kt_from_ke (ke_from_kv 920) = ke_from_kv 920 :=
  C2_derived_constants 920 (by norm_num)

/-- C3: at the first sweep sample the speed and hence omega and the back-EMF
are zero, the current is the stall current bus_voltage / phase_resistance
produced as an ordinary value, the torque is the torque constant times that
current, the mechanical power is zero and the efficiency is zero. -/
theorem C3_stall_sample (kv r v inl c base : ℝ) (n : ℕ) (hn : 2 ≤ n)
    (hr : 0 < r) (hv : 0 < v) :
    (motor_model kv r v inl c base n).speed_rpm.head? = some 0 ∧
    (motor_model kv r v inl c base n).omega.head? = some 0 ∧
    e_backAt kv v n 0 = 0 ∧
    (motor_model kv r v inl c base n).current.head? = some (v / r) ∧
    (motor_model kv r v inl c base n).torque.head? =
      some (kt_from_ke (ke_from_kv kv) * (v / r)) ∧
    (motor_model kv r v inl c base n).p_mech.head? = some 0 ∧
    (motor_model kv r v inl c base n).efficiency.head? = some 0 := by
  have hn0 : 0 < n := by omega
  have h0 := speed_rpmAt_zero kv v n
  have homega : omegaAt kv v n 0 = 0 := by
    unfold omegaAt; rw [h0]; ring
  have heback : e_backAt kv v n 0 = 0 := by
    unfold e_backAt; rw [homega]; ring
  have hcur : i_phaseAt kv r v n 0 = v / r := by
    unfold i_phaseAt
    rw [heback, sub_zero]
    exact max_eq_left (le_of_lt (div_pos hv hr))
  have htorque : torqueAt kv r v n 0 = kt_from_ke (ke_from_kv kv) * (v / r) := by
    unfold torqueAt; rw [hcur]
  have hpmech : p_mechAt kv r v n 0 = 0 := by
    unfold p_mechAt; rw [homega]; ring
  have heta : etaAt kv r v n 0 = 0 := by
    unfold etaAt
    rw [hpmech]
    split
    · rw [zero_div]; norm_num
    · norm_num
  simp only [motor_model]
  rw [head?_map_range _ _ hn0, head?_map_range _ _ hn0, head?_map_range _ _ hn0,
    head?_map_range _ _ hn0, head?_map_range _ _ hn0, head?_map_range _ _ hn0,
    h0, homega, hcur, htorque, hpmech, heta]
  exact ⟨rfl, rfl, heback, rfl, rfl, rfl, rfl⟩

/-- Witness for C3 at the concrete configuration of the source. -/
theorem C3_stall_sample_witness :
    (motor_model 920 0.2 14.8 0.8 3 13616 200).speed_rpm.head? = some 0 ∧
    (motor_model 920 0.2 14.8 0.8 3 13616 200).omega.head? = some 0 ∧
    e_backAt 920 14.8 200 0 = 0 ∧
    (motor_model 920 0.2 14.8 0.8 3 13616 200).current.head? = some (14.8 / 0.2) ∧
    (motor_model 920 0.2 14.8 0.8 3 13616 200).torque.head? =
      some (kt_from_ke (ke_from_kv 920) * (14.8 / 0.2)) ∧
    (motor_model 920 0.2 14.8 0.8 3 13616 200).p_mech.head? = some 0 ∧
    (motor_model 920 0.2 14.8 0.8 3 13616 200).efficiency.head? = some 0 :=
  C3_stall_sample 920 0.2 14.8 0.8 3 13616 200 (by norm_num) (by norm_num)
    (by norm_num)

/-- C4: every efficiency sample is the mechanical-over-input power ratio
clamped to the unit interval when the input power exceeds the 1e-6 guard and
zero otherwise, and consequently every efficiency sample lies in the unit
interval. -/
theorem C4_efficiency (kv r v inl c base : ℝ) (n : ℕ) :
    (motor_model kv r v inl c base n).efficiency =
      (List.range n).map (etaAt kv r v n) ∧
    (∀ i, p_inAt kv r v n i > 1e-6 →
      etaAt kv r v n i =
        min (max (p_mechAt kv r v n i / p_inAt kv r v n i) 0) 1) ∧
    (∀ i, ¬ p_inAt kv r v n i > 1e-6 → etaAt kv r v n i = 0) ∧
    ∀ x ∈ (motor_model kv r v inl c base n).efficiency, 0 ≤ x ∧ x ≤ 1 := by
  refine ⟨rfl, ?_, ?_, ?_⟩
  · intro i h
    unfold etaAt
    rw [if_pos h]
  · intro i h
    unfold etaAt
    rw [if_neg h]
    norm_num
  · intro x hx
    simp only [motor_model, List.mem_map] at hx
    obtain ⟨i, -, rfl⟩ := hx
    unfold etaAt
    constructor
    · exact le_min (le_max_right _ 0) zero_le_one
    · exact min_le_right _ 1

/-- Witness for C4 at the concrete configuration of the source. -/
theorem C4_efficiency_witness :
    (motor_model 920 0.2 14.8 0.8 3 13616 200).efficiency =
      (List.range 200).map (etaAt 920 0.2 14.8 200) ∧
    (∀ i, p_inAt 920 0.2 14.8 200 i > 1e-6 →
      etaAt 920 0.2 14.8 200 i =
        min (max (p_mechAt 920 0.2 14.8 200 i / p_inAt 920 0.2 14.8 200 i) 0) 1) ∧
    (∀ i, ¬ p_inAt 920 0.2 14.8 200 i > 1e-6 → etaAt 920 0.2 14.8 200 i = 0) ∧
    ∀ x ∈ (motor_model 920 0.2 14.8 0.8 3 13616 200).efficiency, 0 ≤ x ∧ x ≤ 1 :=
  C4_efficiency 920 0.2 14.8 0.8 3 13616 200

/-- C5: for every valid input the current, torque, copper-loss, core-loss and
total-loss arrays are element-wise non-negative. -/
theorem C5_nonnegative (kv r v inl c base : ℝ) (n : ℕ)
    (hkv : 0 < kv) (hr : 0 < r) (hc : 0 ≤ c) :
    (∀ x ∈ (motor_model kv r v inl c base n).current, 0 ≤ x) ∧
    (∀ x ∈ (motor_model kv r v inl c base n).torque, 0 ≤ x) ∧
    (∀ x ∈ (motor_model kv r v inl c base n).p_cu, 0 ≤ x) ∧
    (∀ x ∈ (motor_model kv r v inl c base n).p_core, 0 ≤ x) ∧
    (∀ x ∈ (motor_model kv r v inl c base n).p_loss_total, 0 ≤ x) := by
  have hke : 0 < ke_from_kv kv := by
    unfold ke_from_kv
    positivity
  have hcur : ∀ i, 0 ≤ i_phaseAt kv r v n i := fun i => le_max_right _ 0
  have htor : ∀ i, 0 ≤ torqueAt kv r v n i := fun i =>
    mul_nonneg (le_of_lt hke) (hcur i)
  have hcu : ∀ i, 0 ≤ p_cuAt kv r v n i := fun i =>
    mul_nonneg (sq_nonneg _) (le_of_lt hr)
  have hcore : ∀ i, 0 ≤ p_coreAt kv v c base n i := fun i =>
    mul_nonneg hc (sq_nonneg _)
  have htot : ∀ i, 0 ≤ p_loss_totalAt kv r v c base n i := fun i =>
    add_nonneg (hcu i) (hcore i)
  refine ⟨?_, ?_, ?_, ?_, ?_⟩ <;>
    · intro x hx
      simp only [motor_model, List.mem_map] at hx
      obtain ⟨i, -, rfl⟩ := hx
      first
        | exact hcur i
        | exact htor i
        | exact hcu i
        | exact hcore i
        | exact htot i

/-- Witness for C5 at the concrete configuration of the source. -/
theorem C5_nonnegative_witness :
    (∀ x ∈ (motor_model 920 0.2 14.8 0.8 3 13616 200).current, 0 ≤ x) ∧
    (∀ x ∈ (motor_model 920 0.2 14.8 0.8 3 13616 200).torque, 0 ≤ x) ∧
    (∀ x ∈ (motor_model 920 0.2 14.8 0.8 3 13616 200).p_cu, 0 ≤ x) ∧
    (∀ x ∈ (motor_model 920 0.2 14.8 0.8 3 13616 200).p_core, 0 ≤ x) ∧
    (∀ x ∈ (motor_model 920 0.2 14.8 0.8 3 13616 200).p_loss_total, 0 ≤ x) :=
  C5_nonnegative 920 0.2 14.8 0.8 3 13616 200 (by norm_num) (by norm_num)
    (by norm_num)

/-- C8: the no-load-current input is inert: two invocations of motor_model
differing only in i_noload return identical results (every array and every
scalar of the bundle). -/
theorem C8_no_load_current_inert (kv r v c base : ℝ) (n : ℕ) (a b : ℝ) :
    motor_model kv r v a c base n = motor_model kv r v b c base n := rfl

/-- Folding max from a is at least a. -/
lemma le_foldl_max (a : ℝ) (l : List ℝ) : a ≤ l.foldl max a := by
  induction l generalizing a with
  | nil => exact le_refl a
  | cons b t ih => exact le_trans (le_max_left a b) (ih (max a b))

/-- Folding max from a bounds every element of the list. -/
lemma mem_le_foldl_max (a x : ℝ) (l : List ℝ) (hx : x ∈ l) : x ≤ l.foldl max a := by
  induction l generalizing a with
  | nil => cases hx
  | cons b t ih =>
    rcases List.mem_cons.mp hx with rfl | h
    · exact le_trans (le_max_right a x) (le_foldl_max _ t)
    · exact ih _ h

/-- Folding max from a lands on a or on an element of the list. -/
lemma foldl_max_mem (a : ℝ) (l : List ℝ) : l.foldl max a ∈ a :: l := by
  induction l generalizing a with
  | nil => simp
  | cons b t ih =>
    simp only [List.foldl_cons]
    rcases List.mem_cons.mp (ih (max a b)) with h | h
    · rcases max_cases a b with ⟨he, -⟩ | ⟨he, -⟩
      · rw [h, he]; exact List.mem_cons_self _ _
      · rw [h, he]; exact List.mem_cons_of_mem _ (List.mem_cons_self _ _)
    · exact List.mem_cons_of_mem _ (List.mem_cons_of_mem _ h)

/-- npMax of a cons folds max over the tail starting at the head. -/
lemma npMax_cons (a : ℝ) (t : List ℝ) : npMax (a :: t) = t.foldl max a := by
  unfold npMax
  rw [List.headD_cons, List.foldl_cons, max_self]

/-- Every element of a list is at most its npMax. -/
lemma le_npMax_of_mem (x : ℝ) (l : List ℝ) (hx : x ∈ l) : x ≤ npMax l := by
  cases l with
  | nil => cases hx
  | cons a t =>
    rw [npMax_cons]
    rcases List.mem_cons.mp hx with rfl | h
    · exact le_foldl_max x t
    · exact mem_le_foldl_max a x t h

/-- npMax of a nonempty list is one of its elements. -/
lemma npMax_mem (l : List ℝ) (hl : l ≠ []) : npMax l ∈ l := by
  cases l with
  | nil => exact absurd rfl hl
  | cons a t =>
    rw [npMax_cons]
    exact foldl_max_mem a t

/-- C6: the scalar thermal summary is exact: p_loss_max bounds every
total-loss sample and is attained by one (the maximum over the whole sweep,
stall sample included), delta_t_max is p_loss_max times the lumped thermal
resistance, and t_case_max is the ambient temperature plus delta_t_max. -/
theorem C6_thermal_summary (kv r v inl c base : ℝ) (n : ℕ) (hn : 1 ≤ n) :
    (∀ x ∈ (motor_model kv r v inl c base n).p_loss_total,
      x ≤ (motor_model kv r v inl c base n).p_loss_max) ∧
    (motor_model kv r v inl c base n).p_loss_max ∈
      (motor_model kv r v inl c base n).p_loss_total ∧
    (motor_model kv r v inl c base n).delta_t_max =
      (motor_model kv r v inl c base n).p_loss_max * THERMAL_RESISTANCE_C_PER_W ∧
    (motor_model kv r v inl c base n).t_case_max =
      AMBIENT_TEMP_C + (motor_model kv r v inl c base n).delta_t_max := by
  refine ⟨?_, ?_, rfl, rfl⟩
  · intro x hx
    simp only [motor_model] at hx ⊢
    exact le_npMax_of_mem x _ hx
  · simp only [motor_model]
    apply npMax_mem
    intro h
    have hlen := congrArg List.length h
    simp at hlen
    omega

/-- Witness for C6 at the concrete configuration of the source. -/
theorem C6_thermal_summary_witness :
    (∀ x ∈ (motor_model 920 0.2 14.8 0.8 3 13616 200).p_loss_total,
      x ≤ (motor_model 920 0.2 14.8 0.8 3 13616 200).p_loss_max) ∧
    (motor_model 920 0.2 14.8 0.8 3 13616 200).p_loss_max ∈
      (motor_model 920 0.2 14.8 0.8 3 13616 200).p_loss_total ∧
    (motor_model 920 0.2 14.8 0.8 3 13616 200).delta_t_max =
      (motor_model 920 0.2 14.8 0.8 3 13616 200).p_loss_max *
        THERMAL_RESISTANCE_C_PER_W ∧
    (motor_model 920 0.2 14.8 0.8 3 13616 200).t_case_max =
      AMBIENT_TEMP_C + (motor_model 920 0.2 14.8 0.8 3 13616 200).delta_t_max :=
  C6_thermal_summary 920 0.2 14.8 0.8 3 13616 200 (by norm_num)

/-- C10: energy balance: at every sweep sample the electrical input power
equals the mechanical output power plus the copper loss exactly; in
particular when the clamp zeroes the current all three are zero. -/
theorem C10_energy_balance (kv r v inl c base : ℝ) (n : ℕ) (hr : 0 < r) :
    (motor_model kv r v inl c base n).p_in =
      (List.range n).map (p_inAt kv r v n) ∧
    ∀ i, p_inAt kv r v n i = p_mechAt kv r v n i + p_cuAt kv r v n i := by
  refine ⟨rfl, fun i => ?_⟩
  unfold p_inAt p_mechAt p_cuAt torqueAt i_phaseAt kt_from_ke e_backAt
  rcases le_or_lt ((v - ke_from_kv kv * omegaAt kv v n i) / r) 0 with h | h
  · rw [max_eq_right h]
    ring
  · rw [max_eq_left (le_of_lt h)]
    have hr0 : r ≠ 0 := ne_of_gt hr
    field_simp
    ring

/-- Witness for C10 at the concrete configuration of the source. -/
theorem C10_energy_balance_witness :
    (motor_model 920 0.2 14.8 0.8 3 13616 200).p_in =
      (List.range 200).map (p_inAt 920 0.2 14.8 200) ∧
    ∀ i, p_inAt 920 0.2 14.8 200 i =
      p_mechAt 920 0.2 14.8 200 i + p_cuAt 920 0.2 14.8 200 i :=
  C10_energy_balance 920 0.2 14.8 0.8 3 13616 200 (by norm_num)

/-- C9 counterexample: not every invalid configuration runs to completion.
At speed constant 0 (the other parameters being the concrete source
configuration) ke_from_kv raises ZeroDivisionError, and at sample_count 0
np.max raises ValueError on the empty total-loss array; both runs end in a
raise, modelled by motor_modelChecked returning none. -/
theorem C9_no_validation_counterexample :
    motor_modelChecked 0 0.2 14.8 0.8 3 13616 200 = none ∧
    motor_modelChecked 920 0.2 14.8 0.8 3 13616 0 = none := by
  constructor
  · simp [motor_modelChecked, ke_from_kvChecked]
  · cases h : ke_from_kvChecked 920 <;>
      simp [motor_modelChecked, h, npMaxChecked]

/-- C9 (amended): the model performs no explicit validation and never fails
fast with a validation error: whenever the speed constant is nonzero and at
least one sample is requested it runs to completion, even for non-positive
resistance, bus voltage or base speed, and for sample_count 1 it produces
the degenerate single-point sweep containing only the zero-speed sample,
with every array of the requested length; however a zero speed constant
raises ZeroDivisionError inside ke_from_kv and sample_count 0 raises
ValueError inside np.max, so those two invalid configurations do not run to
completion. -/
theorem C9_no_validation (kv r v inl c base : ℝ) (n : ℕ)
    (hkv : kv ≠ 0) (hn : 1 ≤ n) :
    motor_modelChecked kv r v inl c base n =
      some (motor_model kv r v inl c base n) ∧
    (motor_model kv r v inl c base 1).speed_rpm = [0] ∧
    (motor_model kv r v inl c base n).speed_rpm.length = n ∧
    (motor_model kv r v inl c base n).efficiency.length = n ∧
    (motor_model kv r v inl c base n).p_loss_total.length = n ∧
    motor_modelChecked 0 r v inl c base n = none ∧
    motor_modelChecked kv r v inl c base 0 = none := by
  refine ⟨?_, ?_, by simp [motor_model], by simp [motor_model],
    by simp [motor_model], ?_, ?_⟩
  · have hd : kv * (2 * Real.pi / 60) ≠ 0 := by
      refine mul_ne_zero hkv (ne_of_gt ?_)
      positivity
    have h1 : ke_from_kvChecked kv = some (ke_from_kv kv) := by
      unfold ke_from_kvChecked
      rw [if_neg hd]
    have hne : (List.range n).map (p_loss_totalAt kv r v c base n) ≠ [] := by
      intro h
      have hlen := congrArg List.length h
      simp at hlen
      omega
    have h2 : npMaxChecked ((List.range n).map (p_loss_totalAt kv r v c base n)) =
        some (npMax ((List.range n).map (p_loss_totalAt kv r v c base n))) := by
      unfold npMaxChecked
      rw [if_neg hne]
    unfold motor_modelChecked
    rw [h1, h2, Option.some_bind, Option.some_bind]
  · simp [motor_model, List.range_succ, speed_rpmAt, linspaceAt]
  · simp [motor_modelChecked, ke_from_kvChecked]
  · cases h : ke_from_kvChecked kv <;>
      simp [motor_modelChecked, h, npMaxChecked]

/-- Witness for C9 at the concrete configuration of the source. -/
theorem C9_no_validation_witness :
    motor_modelChecked 920 0.2 14.8 0.8 3 13616 200 =
      some (motor_model 920 0.2 14.8 0.8 3 13616 200) ∧
    (motor_model 920 0.2 14.8 0.8 3 13616 1).speed_rpm = [0] ∧
    (motor_model 920 0.2 14.8 0.8 3 13616 200).speed_rpm.length = 200 ∧
    (motor_model 920 0.2 14.8 0.8 3 13616 200).efficiency.length = 200 ∧
    (motor_model 920 0.2 14.8 0.8 3 13616 200).p_loss_total.length = 200 ∧
    motor_modelChecked 0 0.2 14.8 0.8 3 13616 200 = none ∧
    motor_modelChecked 920 0.2 14.8 0.8 3 13616 0 = none :=
  C9_no_validation 920 0.2 14.8 0.8 3 13616 200 (by norm_num) (by norm_num)

/-- C7: the core-loss law is linear in the base coefficient and quadratic in
the clamped speed ratio: doubling core_loss_at_base doubles every core-loss
sample and leaves the copper-loss array untouched, and each core-loss sample
equals core_loss_at_base times the square of the speed ratio clamped below
at zero. -/
theorem C7_core_loss_scaling (kv r v inl c base : ℝ) (n i : ℕ) :
    (motor_model kv r v inl (2 * c) base n).p_core =
      ((motor_model kv r v inl c base n).p_core).map (fun x => 2 * x) ∧
    (motor_model kv r v inl (2 * c) base n).p_cu =
      (motor_model kv r v inl c base n).p_cu ∧
    p_coreAt kv v (2 * c) base n i = 2 * p_coreAt kv v c base n i ∧
    p_coreAt kv v c base n i =
      c * max (speed_rpmAt kv v n i / base) 0 ^ 2 := by
  refine ⟨?_, rfl, ?_, rfl⟩
  · simp only [motor_model, List.map_map]
    apply List.map_congr_left
    intro a _
    simp only [Function.comp_apply, p_coreAt]
    ring
  · simp only [p_coreAt]
    ring

end BLDC
